import Mathlib

set_option maxHeartbeats 1000000

/-! Verification of the ingestion and retrieval pipeline of the
Sales Enablement Assistant (an HTML-documentation RAG application).

The Python text primitives used by the code (`str.split()`,
`str.split("\n")`, `str.strip()`, `os.path.basename`, `sorted`) are
embedded as executable functions on `List Char`.  The external
collaborators (BeautifulSoup, the Ollama embedding/chat services and the
ChromaDB vector index) are modelled as oracles: a raised exception is an
`Except.error`, a normal return is `Except.ok`. -/

/-- Python strings, modelled as lists of characters. -/
abbrev Str := List Char

/-- The ASCII whitespace characters recognised by Python's no-argument
`str.split()` and `str.strip()`. -/
def pyIsSpace (c : Char) : Bool :=
  c = ' ' || c = '\t' || c = '\n' || c = '\r' || c = '\x0b' || c = '\x0c'

/-- Helper for `wc`: counts whitespace-delimited tokens; the flag records
whether the scan is currently inside a token. -/
def wcAux : Bool → Str → Nat
  | _, [] => 0
  | inTok, c :: cs =>
    if pyIsSpace c then wcAux false cs
    else if inTok then wcAux true cs else 1 + wcAux true cs

/-- `wc s` is Python's `len(s.split())`: the number of maximal
whitespace-delimited tokens of `s`. -/
def wc (s : Str) : Nat := wcAux false s

/-- Python's `text.split("\n")`: split at every newline, keeping empty
paragraphs (splitting the empty string yields `[""]`, as in Python). -/
def splitNL : Str → List Str
  | [] => [[]]
  | c :: cs =>
    if c = '\n' then [] :: splitNL cs
    else
      match splitNL cs with
      | [] => [[c]]
      | p :: ps => (c :: p) :: ps

/-- Removal of trailing Python whitespace (the right half of `str.strip()`). -/
def pyRStrip (s : Str) : Str := (s.reverse.dropWhile pyIsSpace).reverse

/-- Python's `s.strip()`: remove leading and trailing whitespace. -/
def pyStrip (s : Str) : Str := (pyRStrip s).dropWhile pyIsSpace

/-- `str.strip()` on the `String` wrapper type. -/
def pyStripS (s : String) : String := String.mk (pyStrip s.data)

/-- `CHUNK_SIZE_TOKENS` from `config/settings.py`. -/
def CHUNK_SIZE_TOKENS : Nat := 400

/-- `COLLECTION_NAME` from `config/settings.py`. -/
def COLLECTION_NAME : String := "local_docs"

/-- The loop of `chunk_text` in `backend/ingest_docs.py`: greedily
accumulate paragraphs into `buf` (Python's `current_chunk`); when
`len(current_chunk.split()) + len(para.split()) < max_tokens` fails, flush
the stripped buffer as a chunk and restart the buffer from the paragraph;
after the loop, flush the stripped buffer if it is non-empty (truthy). -/
def chunkLoop (maxTokens : Nat) : List Str → Str → List Str
  | [], buf => if pyStrip buf = [] then [] else [pyStrip buf]
  | para :: ps, buf =>
    if wc buf + wc para < maxTokens then
      chunkLoop maxTokens ps (buf ++ para ++ ['\n'])
    else
      pyStrip buf :: chunkLoop maxTokens ps (para ++ ['\n'])

/-- `chunk_text(text, max_tokens)` from `backend/ingest_docs.py`:
paragraph-based splitter over `text.split("\n")` starting from an empty
`current_chunk`. -/
def chunk_text (text : Str) (maxTokens : Nat) : List Str :=
  chunkLoop maxTokens (splitNL text) []

/-- `os.path.basename` (POSIX): the part of the path after the last slash. -/
def basenameL (s : Str) : Str := (s.reverse.takeWhile (fun c => !(c = '/'))).reverse

/-- `os.path.basename` on the `String` wrapper type. -/
def basenameS (s : String) : String := String.mk (basenameL s.data)

/-- Python's `<=` on strings: lexicographic comparison of code points. -/
def strLe : Str → Str → Bool
  | [], _ => true
  | _ :: _, [] => false
  | a :: as, b :: bs => if a < b then true else if a = b then strLe as bs else false

/-- `strLe` on the `String` wrapper type. -/
def strLeS (a b : String) : Bool := strLe a.data b.data

/-- Stable insertion of one element into a sorted list (helper for
`pySorted`). -/
def insertSorted (x : String) : List String → List String
  | [] => [x]
  | y :: ys => if strLeS y x then y :: insertSorted x ys else x :: y :: ys

/-- Python's `sorted` on a list of strings: a stable sort by code-point
lexicographic order. -/
def pySorted : List String → List String
  | [] => []
  | x :: xs => insertSorted x (pySorted xs)

/-- The metadata dict stored with each indexed chunk (`title`,
`source_path`); `source_path` is optional because the reading code uses
`metadata.get("source_path")`. -/
structure Meta where
  title : String
  source_path : Option String
deriving DecidableEq

/-- One element of the list returned by `search_vector_db`: a dict
`{"document": ..., "metadata": ...}`. -/
structure RetChunk where
  document : String
  metadata : Meta
deriving DecidableEq

/-- Errors raised by the ChromaDB client: `ValueError` (collection does
not exist) versus any other exception. -/
inductive DbErr where
  | valueError
  | other (msg : String)
deriving DecidableEq

/-- The dict returned by `collection.query` (one entry per query in the
batch; the code always sends a batch of one). -/
structure QueryResults where
  ids : List (List String)
  documents : List (List String)
  metadatas : List (List Meta)
deriving DecidableEq

/-- Modelled from the spec: the black-box vector index service
(`chromadb` is external to the repository).  `getCollection` is the
outcome of `client.get_collection(name=COLLECTION_NAME)` and `query` the
outcome of `collection.query(...)`; an `Except.error` is a raised
exception. -/
structure VectorDb where
  getCollection : Except DbErr Unit
  query : List Int → Nat → Except DbErr QueryResults

/-- `search_vector_db(query_embedding, top_k)` from `backend/vector_db.py`.
Everything in the function body sits inside `try`; both `except ValueError`
and the catch-all `except Exception` return `[]`, so every raised
exception (including an out-of-range `results['documents'][0]` access on a
malformed result) becomes `[]`. -/
def search_vector_db (db : VectorDb) (query_embedding : List Int) (top_k : Nat) :
    List RetChunk :=
  match db.getCollection with
  | .error _ => []
  | .ok _ =>
    match db.query query_embedding top_k with
    | .error _ => []
    | .ok results =>
      match results.ids with
      | [] => []
      | ids0 :: _ =>
        if ids0 = [] then []
        else
          match results.documents, results.metadatas with
          | docs0 :: _, metas0 :: _ =>
            (docs0.zip metas0).map (fun dm => ⟨dm.1, dm.2⟩)
          | _, _ => []

/-- One item persisted in the collection. -/
structure DbItem where
  id : String
  embedding : List Int
  document : String
  metadata : Meta
deriving DecidableEq

/-- The persisted state of the ChromaDB collection: `none` when the
collection does not exist, otherwise its items. -/
structure DbState where
  collection : Option (List DbItem)
deriving DecidableEq

/-- The success message of `clear_database_collection`. -/
def clearSuccessMsg : String :=
  "✅ Collection '" ++ COLLECTION_NAME ++
    "' has been cleared successfully. It now contains 0 items."

/-- The informational message of `clear_database_collection` when the
collection does not exist. -/
def clearInfoMsg : String :=
  "ℹ️ Collection '" ++ COLLECTION_NAME ++ "' did not exist, so there was nothing to clear."

/-- `clear_database_collection()` from `backend/vector_db.py`, as a state
transformer on the collection: `get_collection` raises `ValueError` when
the collection is absent (informational branch); otherwise
`delete_collection` followed by `create_collection` leaves an existing,
empty collection. -/
def clear_database_collection (s : DbState) : DbState × String :=
  match s.collection with
  | some _ => (⟨some []⟩, clearSuccessMsg)
  | none => (s, clearInfoMsg)

/-- `collection.count()` against a state: raises when the collection is
absent. -/
def countState (s : DbState) : Except DbErr Nat :=
  match s.collection with
  | none => .error .valueError
  | some items => .ok items.length

/-- Modelled from the spec: the ChromaDB client viewed from
`search_vector_db`, interpreted over a collection state.  A query against
an existing but empty collection returns zero matches (`ids = [[]]`); the
ranking of a non-empty collection is the index's black-box similarity
order `rank`. -/
def dbOfState (s : DbState) (rank : List DbItem → List Int → Nat → QueryResults) :
    VectorDb where
  getCollection := match s.collection with
    | none => .error .valueError
    | some _ => .ok ()
  query := fun emb k =>
    match s.collection with
    | none => .error .valueError
    | some [] => .ok ⟨[[]], [[]], [[]]⟩
    | some items => .ok (rank items emb k)

/-- Modelled from bs4 (external library): the parse of one HTML document
as seen by `clean_html`.  `titleTag = none` means the document has no
`<title>` element; `titleTag = some none` means a `<title>` element whose
`.string` is `None` (e.g. `<title></title>` or a title with non-text
children); `titleTag = some (some s)` a title whose `.string` is `s`.
`textContent` abstracts `soup.get_text(separator="\n", strip=True)` after
the script/style `decompose()` calls. -/
structure Soup where
  titleTag : Option (Option String)
  textContent : String
deriving DecidableEq

/-- The Python error raised by `None.strip()`. -/
def attrErrorMsg : String := "AttributeError: 'NoneType' object has no attribute 'strip'"

/-- `clean_html(html_content)` from `backend/ingest_docs.py`, over the
parsed soup: `soup.title.string.strip() if soup.title else "Untitled
Document"`.  When the title element exists but its `.string` is `None`,
the `.strip()` call raises `AttributeError`. -/
def clean_html (soup : Soup) : Except String (String × String) :=
  match soup.titleTag with
  | none => .ok ("Untitled Document", soup.textContent)
  | some none => .error attrErrorMsg
  | some (some s) => .ok (pyStripS s, soup.textContent)

/-- One file yielded by `os.walk`: its name, its joined path, and the
outcome of `open(file_path, ...).read()` (an `Except.error` is a raised
`OSError`; decode errors cannot occur because of `errors="ignore"`). -/
structure FileEntry where
  name : String
  path : String
  readRes : Except String String

/-- The external services used per file by `ingest_directory`:
`clean_html`'s bs4 parse (which may raise), `ollama.embeddings` and
`collection.add` (arguments: documents, embeddings, title, source path). -/
structure IngestEnv where
  cleanHtml : String → Except String (String × String)
  embed : Str → Except String (List Int)
  indexAdd : List Str → List (List Int) → String → String → Except String Unit

/-- Observable side effects of ingestion: one embedding-service call per
chunk, and one `collection.add` call per file. -/
inductive IngestEffect where
  | embedCall (prompt : Str)
  | indexWrite (numItems : Nat)
deriving DecidableEq

/-- `file.lower().endswith((".html", ".htm"))`. -/
def isEligible (name : String) : Bool :=
  List.isSuffixOf ".html".data (name.data.map Char.toLower) ||
    List.isSuffixOf ".htm".data (name.data.map Char.toLower)

/-- The per-chunk embedding loop of `ingest_directory`: one synchronous
`ollama.embeddings` call per chunk, in order; a raise stops the loop. -/
def embedChunks (env : IngestEnv) : List Str → Except String (List (List Int)) × List IngestEffect
  | [] => (.ok [], [])
  | c :: cs =>
    match env.embed c with
    | .error e => (.error e, [.embedCall c])
    | .ok v =>
      match embedChunks env cs with
      | (r, effs) => (r.map (fun vs => v :: vs), .embedCall c :: effs)

/-- The failure line appended by the `except` branch of `ingest_directory`. -/
def failLine (filePath e : String) : String := "❌ Failed to process " ++ filePath ++ ": " ++ e

/-- The success line appended by `ingest_directory`. -/
def successLine (fileName : String) (numChunks : Nat) : String :=
  "✓ " ++ fileName ++ " — " ++ toString numChunks ++ " chunks indexed"

/-- The body of the `try` block of `ingest_directory` for one file:
`clean_html`, `chunk_text` (with the default `CHUNK_SIZE_TOKENS` bound),
the zero-chunk `continue`, the per-chunk embedding loop, and
`collection.add`.  Returns the summary entry (`none` when the file is
skipped) or the raised exception, together with the effect log. -/
def runFileSteps (env : IngestEnv) (fileName filePath html : String) :
    Except String (Option String) × List IngestEffect :=
  match env.cleanHtml html with
  | .error e => (.error e, [])
  | .ok (_title, text) =>
    let chunks := chunk_text text.data CHUNK_SIZE_TOKENS
    if chunks.isEmpty then (.ok none, [])
    else
      match embedChunks env chunks with
      | (.error e, effs) => (.error e, effs)
      | (.ok doc_embeddings, effs) =>
        match env.indexAdd chunks doc_embeddings _title filePath with
        | .error e => (.error e, effs ++ [.indexWrite chunks.length])
        | .ok _ => (.ok (some (successLine fileName chunks.length)),
                    effs ++ [.indexWrite chunks.length])

/-- The walk of `ingest_directory` over the eligible files: non-eligible
files are skipped by the `continue`; the `open(...).read()` happens
OUTSIDE the `try` block, so a read exception propagates and aborts the
walk (`Except.error`); everything else is caught per file, appending
either a success line, nothing (zero chunks), or a failure line. -/
def ingestLoop (env : IngestEnv) : List FileEntry → Except String (List String) × List IngestEffect
  | [] => (.ok [], [])
  | f :: fs =>
    if isEligible f.name then
      match f.readRes with
      | .error e => (.error e, [])
      | .ok html =>
        match runFileSteps env f.name f.path html with
        | (r, effs) =>
          match ingestLoop env fs with
          | (rest, restEffs) =>
            (rest.map (fun lines =>
              match r with
              | .ok none => lines
              | .ok (some line) => line :: lines
              | .error e => failLine f.path e :: lines),
             effs ++ restEffs)
    else ingestLoop env fs

/-- `ingest_directory(folder_path)` from `backend/ingest_docs.py`:
the walk, with the summary joined by newlines on normal return. -/
def ingest_directory (env : IngestEnv) (files : List FileEntry) :
    Except String String × List IngestEffect :=
  match ingestLoop env files with
  | (.ok lines, effs) => (.ok (String.intercalate "\n" lines), effs)
  | (.error e, effs) => (.error e, effs)

/-- The external services used by `get_rag_response_stream`:
`ollama.embeddings` and `ollama.chat` (the stream handle is modelled as
the list of its pieces). -/
structure RagEnv where
  embed : String → Except String (List Int)
  chat : String → Except String (List String)

/-- Observable service calls of the query path. -/
inductive RagEffect where
  | embedCall (prompt : String)
  | chatCall (prompt : String)
deriving DecidableEq

/-- The fixed error message returned with the `None` stream when
retrieval finds nothing. -/
def ragErrorMessage : String :=
  "No relevant documents were found in the database. Please try rephrasing your question or ingesting more documents."

/-- The source-dedup loop of `get_rag_response_stream`: walk the retrieved
chunks in rank order; `if source_path and source_path not in seen_paths`,
append `os.path.basename(source_path)` to the display list and add the
full path to `seen_paths`. -/
def dedupLoop : List RetChunk → List String → List String
  | [], _ => []
  | c :: cs, seen =>
    match c.metadata.source_path with
    | none => dedupLoop cs seen
    | some p =>
      if p ≠ "" ∧ p ∉ seen then basenameS p :: dedupLoop cs (p :: seen)
      else dedupLoop cs seen

/-- `source_documents` as built by `get_rag_response_stream` (before
sorting). -/
def source_documents (retrieved_chunks : List RetChunk) : List String :=
  dedupLoop retrieved_chunks []

/-- The rendered citation block:
`"### Retrieved Sources:\n" + "\n".join(f"- {doc}" for doc in sorted(source_documents))`. -/
def sourcesText (retrieved_chunks : List RetChunk) : String :=
  "### Retrieved Sources:\n" ++
    String.intercalate "\n" ((pySorted (source_documents retrieved_chunks)).map
      (fun doc => "- " ++ doc))

/-- `RAG_PROMPT_TEMPLATE.format(context=..., query=...)` from
`config/settings.py`: the fixed instruction text around the two
substitution points. -/
def ragPrompt (context query : String) : String :=
  "\n**ROLE:** You are an AI assistant for a salesperson who is on a live call with a customer.\nYour goal is to generate a concise, clean, plain-text response that the salesperson can read word-for-word to the customer.\n\n**CRITICAL INSTRUCTIONS:**\n1.  **Base Your Answer on the Context:** Your entire answer MUST be derived exclusively from the [DOCUMENTATION CONTEXT] provided. Do not use any outside knowledge.\n2.  **No Formatting:** DO NOT use Markdown, HTML, bullet points, or any other special formatting. The output must be a single block of plain text.\n3.  **Stay in Character:** Do not break character. Do not explain your reasoning, mention the context, or refer to yourself as an AI.\n4.  **Be Direct and Professional:** Phrase the response as if you are the salesperson speaking directly to the customer.\n5.  **Handle Missing Information:** If the answer is not in the provided context, your entire response must be ONLY this exact phrase: \"I'll need to follow up with you on that specific question.\"\n\n---\n[DOCUMENTATION CONTEXT]\n" ++
    context ++
    "\n---\n[CUSTOMER'S QUESTION]\n" ++
    query ++
    "\n---\n[YOUR RESPONSE (TO BE READ BY SALESPERSON)]\n"

/-- `get_rag_response_stream(query)` from `backend/rag_pipeline.py`.
The embedding call is NOT inside any `try`, so its exception propagates
(`Except.error`); an empty retrieval short-circuits to
`(None, error_message)` before the generation call; otherwise the prompt
is built and `ollama.chat(..., stream=True)` is invoked. -/
def get_rag_response_stream (env : RagEnv) (db : VectorDb) (query : String) :
    Except String (Option (List String) × String) × List RagEffect :=
  match env.embed query with
  | .error e => (.error e, [.embedCall query])
  | .ok query_embedding =>
    let retrieved_chunks := search_vector_db db query_embedding 5
    if retrieved_chunks.isEmpty then
      (.ok (none, ragErrorMessage), [.embedCall query])
    else
      let sources_text := sourcesText retrieved_chunks
      let context_str :=
        String.intercalate "\n\n---\n\n" (retrieved_chunks.map (fun c => c.document))
      let final_prompt := ragPrompt context_str query
      match env.chat final_prompt with
      | .error e => (.error e, [.embedCall query, .chatCall final_prompt])
      | .ok llm_stream =>
        (.ok (some llm_stream, sources_text), [.embedCall query, .chatCall final_prompt])

/-- Spec-side helper (for the refinement statement of the citation list):
keep the first occurrence of each distinct element, given the set already
seen. -/
def firstOccAux (seen : List String) : List String → List String
  | [] => []
  | x :: xs => if x ∈ seen then firstOccAux seen xs else x :: firstOccAux (x :: seen) xs

/-- Spec-side: first occurrence of each distinct element, in encounter
order. -/
def firstOccurrences (l : List String) : List String := firstOccAux [] l

/-- Spec-side: the truthy `source_path`s of the retrieved chunks, in rank
order. -/
def validPaths (retrieved_chunks : List RetChunk) : List String :=
  retrieved_chunks.filterMap (fun c =>
    match c.metadata.source_path with
    | none => none
    | some p => if p = "" then none else some p)

/-! ### Word-count and strip lemmas -/

theorem wcAux_true_le (s : Str) : wcAux true s ≤ wcAux false s := by
  induction s with
  | nil => simp [wcAux]
  | cons c cs ih =>
    by_cases h : pyIsSpace c
    · simp [wcAux, h]
    · simp [wcAux, h]

theorem wcAux_append_le (a t : Str) (b : Bool) :
    wcAux b (a ++ t) ≤ wcAux b a + wcAux false t := by
  induction a generalizing b with
  | nil =>
    cases b
    · simp [wcAux]
    · simpa [wcAux] using wcAux_true_le t
  | cons c cs ih =>
    by_cases h : pyIsSpace c
    · simpa [wcAux, h] using ih false
    · cases b
      · have := ih true
        simp [wcAux, h]
        omega
      · simpa [wcAux, h] using ih true

theorem wcAux_concat_ws (a : Str) (c : Char) (h : pyIsSpace c = true) (b : Bool) :
    wcAux b (a ++ [c]) = wcAux b a := by
  induction a generalizing b with
  | nil => simp [wcAux, h]
  | cons d ds ih =>
    by_cases hd : pyIsSpace d
    · simpa [wcAux, hd] using ih false
    · cases b <;> simp [wcAux, hd, ih true]

theorem wcAux_append_allws :
    ∀ (t : Str), (∀ c ∈ t, pyIsSpace c = true) →
      ∀ (a : Str) (b : Bool), wcAux b (a ++ t) = wcAux b a := by
  intro t
  induction t with
  | nil => intro _ a b; simp
  | cons c cs ih =>
    intro hws a b
    have h1 : wcAux b ((a ++ [c]) ++ cs) = wcAux b (a ++ [c]) :=
      ih (fun d hd => hws d (List.mem_cons_of_mem c hd)) (a ++ [c]) b
    have h2 : wcAux b (a ++ [c]) = wcAux b a :=
      wcAux_concat_ws a c (hws c (List.mem_cons_self c cs)) b
    calc wcAux b (a ++ c :: cs) = wcAux b ((a ++ [c]) ++ cs) := by
          rw [List.append_assoc]; rfl
      _ = wcAux b a := by rw [h1, h2]

theorem wcAux_dropWhile (s : Str) :
    wcAux false (s.dropWhile pyIsSpace) = wcAux false s := by
  induction s with
  | nil => rfl
  | cons c cs ih =>
    by_cases h : pyIsSpace c
    · simpa [List.dropWhile, h, wcAux] using ih
    · simp [List.dropWhile, h]

theorem pyRStrip_decomp (s : Str) :
    ∃ t, s = pyRStrip s ++ t ∧ ∀ c ∈ t, pyIsSpace c = true := by
  refine ⟨(s.reverse.takeWhile pyIsSpace).reverse, ?_, ?_⟩
  · calc s = s.reverse.reverse := (List.reverse_reverse s).symm
      _ = (s.reverse.takeWhile pyIsSpace ++ s.reverse.dropWhile pyIsSpace).reverse := by
          rw [List.takeWhile_append_dropWhile]
      _ = pyRStrip s ++ (s.reverse.takeWhile pyIsSpace).reverse := by
          rw [List.reverse_append]; rfl
  · intro c hc
    rw [List.mem_reverse] at hc
    exact List.mem_takeWhile_imp hc

theorem wc_pyRStrip (s : Str) : wc (pyRStrip s) = wc s := by
  obtain ⟨t, hs, hws⟩ := pyRStrip_decomp s
  conv_rhs => rw [hs]
  exact (wcAux_append_allws t hws (pyRStrip s) false).symm

theorem wc_pyStrip (s : Str) : wc (pyStrip s) = wc s := by
  have h1 : wc (pyStrip s) = wc (pyRStrip s) := wcAux_dropWhile (pyRStrip s)
  rw [h1, wc_pyRStrip]

theorem wc_of_pyStrip_nil (s : Str) (h : pyStrip s = []) : wc s = 0 := by
  rw [← wc_pyStrip, h]; rfl

theorem pyStrip_ne_nil_of_wc (s : Str) (h : 0 < wc s) : pyStrip s ≠ [] := by
  intro hnil
  have := wc_of_pyStrip_nil s hnil
  omega

theorem mem_of_mem_dropWhile {c : Char} {p : Char → Bool} :
    ∀ {l : Str}, c ∈ l.dropWhile p → c ∈ l := by
  intro l
  induction l with
  | nil => intro h; simp at h
  | cons d ds ih =>
    intro h
    by_cases hd : p d
    · rw [List.dropWhile_cons_of_pos hd] at h
      exact List.mem_cons_of_mem d (ih h)
    · rwa [List.dropWhile_cons_of_neg hd] at h

theorem mem_of_mem_pyRStrip {c : Char} {s : Str} (h : c ∈ pyRStrip s) : c ∈ s := by
  unfold pyRStrip at h
  rw [List.mem_reverse] at h
  have := mem_of_mem_dropWhile h
  rwa [List.mem_reverse] at this

theorem mem_of_mem_pyStrip {c : Char} {s : Str} (h : c ∈ pyStrip s) : c ∈ s :=
  mem_of_mem_pyRStrip (mem_of_mem_dropWhile h)

theorem pyRStrip_concat_ws (s : Str) (c : Char) (h : pyIsSpace c = true) :
    pyRStrip (s ++ [c]) = pyRStrip s := by
  unfold pyRStrip
  rw [List.reverse_append]
  simp [List.dropWhile, h]

theorem pyStrip_concat_ws (s : Str) (c : Char) (h : pyIsSpace c = true) :
    pyStrip (s ++ [c]) = pyStrip s := by
  unfold pyStrip
  rw [pyRStrip_concat_ws s c h]

theorem dropWhile_eq_nil_of_all {p : Char → Bool} :
    ∀ (s : Str), (∀ c ∈ s, p c = true) → s.dropWhile p = [] := by
  intro s
  induction s with
  | nil => intro _; rfl
  | cons d ds ih =>
    intro h
    rw [List.dropWhile_cons_of_pos (h d (List.mem_cons_self d ds))]
    exact ih (fun c hc => h c (List.mem_cons_of_mem d hc))

theorem all_of_dropWhile_eq_nil {p : Char → Bool} :
    ∀ (s : Str), s.dropWhile p = [] → ∀ c ∈ s, p c = true := by
  intro s
  induction s with
  | nil => intro _ c hc; simp at hc
  | cons d ds ih =>
    intro h c hc
    by_cases hd : p d
    · rw [List.dropWhile_cons_of_pos hd] at h
      rcases List.mem_cons.mp hc with hc | hc
      · subst hc; exact hd
      · exact ih h c hc
    · rw [List.dropWhile_cons_of_neg hd] at h
      simp at h

theorem pyStrip_eq_nil_of_all (s : Str) (h : ∀ c ∈ s, pyIsSpace c = true) :
    pyStrip s = [] :=
  dropWhile_eq_nil_of_all (pyRStrip s) (fun c hc => h c (mem_of_mem_pyRStrip hc))

theorem all_space_of_pyStrip_nil (s : Str) (h : pyStrip s = []) :
    ∀ c ∈ s, pyIsSpace c = true := by
  obtain ⟨t, hs, hws⟩ := pyRStrip_decomp s
  have h1 := all_of_dropWhile_eq_nil (pyRStrip s) h
  intro c hc
  rw [hs] at hc
  rcases List.mem_append.mp hc with hc | hc
  · exact h1 c hc
  · exact hws c hc

theorem wc_eq_zero_of_all (s : Str) (h : ∀ c ∈ s, pyIsSpace c = true) : wc s = 0 := by
  have := wcAux_append_allws s h [] false
  simpa [wcAux] using this

/-! ### splitNL lemmas -/

theorem splitNL_ne_nil (s : Str) : splitNL s ≠ [] := by
  cases s with
  | nil => simp [splitNL]
  | cons c cs =>
    by_cases h : c = '\n'
    · simp [splitNL, h]
    · simp only [splitNL, h, if_false]
      cases hs : splitNL cs <;> simp

theorem splitNL_no_newline (s : Str) : ∀ p ∈ splitNL s, ('\n' : Char) ∉ p := by
  induction s with
  | nil =>
    intro p hp
    simp [splitNL] at hp
    subst hp; simp
  | cons c cs ih =>
    intro p hp
    by_cases h : c = '\n'
    · simp only [splitNL, h, if_true, List.mem_cons] at hp
      rcases hp with hp | hp
      · subst hp; simp
      · exact ih p hp
    · simp only [splitNL, h, if_false] at hp
      cases hs : splitNL cs with
      | nil => exact absurd hs (splitNL_ne_nil cs)
      | cons q qs =>
        rw [hs] at hp
        rcases List.mem_cons.mp hp with hp | hp
        · subst hp
          intro hmem
          rcases List.mem_cons.mp hmem with hc | hq
          · exact h hc.symm
          · exact ih q (by rw [hs]; exact List.mem_cons_self q qs) hq
        · exact ih p (by rw [hs]; exact List.mem_cons_of_mem q hp)

/-! ### Chunker lemmas -/

theorem chunkLoop_ne_nil_mem (maxTokens : Nat) :
    ∀ (ps : List Str), (∀ p ∈ ps, wc p < maxTokens) →
      ∀ (buf : Str), ∀ c ∈ chunkLoop maxTokens ps buf, c ≠ [] := by
  intro ps
  induction ps with
  | nil =>
    intro _ buf c hc
    by_cases hb : pyStrip buf = []
    · simp [chunkLoop, hb] at hc
    · simp [chunkLoop, hb] at hc
      subst hc; exact hb
  | cons para ps ih =>
    intro hps buf c hc
    have hpara : wc para < maxTokens := hps para (List.mem_cons_self _ _)
    have hrest : ∀ p ∈ ps, wc p < maxTokens := fun p hp => hps p (List.mem_cons_of_mem _ hp)
    by_cases hg : wc buf + wc para < maxTokens
    · simp only [chunkLoop, if_pos hg] at hc
      exact ih hrest _ c hc
    · simp only [chunkLoop, if_neg hg] at hc
      rcases List.mem_cons.mp hc with hc | hc
    
      · subst hc
        apply pyStrip_ne_nil_of_wc
        omega
      · exact ih hrest _ c hc

theorem flush_chunk_prop (maxTokens : Nat) (L : List Str)
    (hL : ∀ p ∈ L, ('\n' : Char) ∉ p) (buf : Str)
    (hinv : buf = [] ∨ wc buf < maxTokens ∨ ∃ p ∈ L, buf = p ++ ['\n']) :
    (wc (pyStrip buf) ≤ maxTokens ∨ (maxTokens < wc (pyStrip buf) ∧
       ∃ p ∈ L, pyStrip buf = pyStrip (p ++ ['\n']) ∧ maxTokens < wc p)) ∧
    (('\n' : Char) ∈ pyStrip buf → wc (pyStrip buf) < maxTokens) := by
  rcases hinv with hb | hb | ⟨p, hpL, hb⟩
  · subst hb
    constructor
    · left
      simp [pyStrip, pyRStrip, wc, wcAux]
    · intro hmem
      simp [pyStrip, pyRStrip] at hmem
  · constructor
    · left
      rw [wc_pyStrip]
      omega
    · intro _
      rw [wc_pyStrip]
      exact hb
  · subst hb
    have hwc : wc (pyStrip (p ++ ['\n'])) = wc p := by
      rw [wc_pyStrip]
      exact wcAux_concat_ws p '\n' (by decide) false
    have hnl : ('\n' : Char) ∉ pyStrip (p ++ ['\n']) := by
      rw [pyStrip_concat_ws p '\n' (by decide)]
      intro hmem
      exact hL p hpL (mem_of_mem_pyStrip hmem)
    constructor
    · by_cases hle : wc p ≤ maxTokens
      · left; rw [hwc]; exact hle
      · right
        rw [hwc]
        exact ⟨by omega, p, hpL, rfl, by omega⟩
    · intro hmem
      exact absurd hmem hnl

theorem chunkLoop_bound (maxTokens : Nat) (L : List Str)
    (hL : ∀ p ∈ L, ('\n' : Char) ∉ p) :
    ∀ (ps : List Str), (∀ p ∈ ps, p ∈ L) →
    ∀ (buf : Str), (buf = [] ∨ wc buf < maxTokens ∨ ∃ p ∈ L, buf = p ++ ['\n']) →
    ∀ c ∈ chunkLoop maxTokens ps buf,
      (wc c ≤ maxTokens ∨ (maxTokens < wc c ∧
         ∃ p ∈ L, c = pyStrip (p ++ ['\n']) ∧ maxTokens < wc p)) ∧
      (('\n' : Char) ∈ c → wc c < maxTokens) := by
  intro ps
  induction ps with
  | nil =>
    intro _ buf hinv c hc
    by_cases hb : pyStrip buf = []
    · simp [chunkLoop, hb] at hc
    · simp [chunkLoop, hb] at hc
      subst hc
      exact flush_chunk_prop maxTokens L hL buf hinv
  | cons para ps ih =>
    intro hps buf hinv c hc
    have hpL : para ∈ L := hps para (List.mem_cons_self _ _)
    have hrest : ∀ p ∈ ps, p ∈ L := fun p hp => hps p (List.mem_cons_of_mem _ hp)
    by_cases hg : wc buf + wc para < maxTokens
    · simp only [chunkLoop, if_pos hg] at hc
      apply ih hrest _ ?_ c hc
      right; left
      have h1 : wc (buf ++ para ++ ['\n']) = wc (buf ++ para) :=
        wcAux_concat_ws (buf ++ para) '\n' (by decide) false
      have h2 : wc (buf ++ para) ≤ wc buf + wc para := wcAux_append_le buf para false
      omega
    · simp only [chunkLoop, if_neg hg] at hc
      rcases List.mem_cons.mp hc with hc | hc
      · subst hc
        exact flush_chunk_prop maxTokens L hL buf hinv
      · exact ih hrest _ (Or.inr (Or.inr ⟨para, hpL, rfl⟩)) c hc

theorem chunkLoop_all_blank (maxTokens : Nat) (hm : 0 < maxTokens) :
    ∀ (ps : List Str), (∀ p ∈ ps, ∀ c ∈ p, pyIsSpace c = true) →
    ∀ (buf : Str), (∀ c ∈ buf, pyIsSpace c = true) →
      chunkLoop maxTokens ps buf = [] := by
  intro ps
  induction ps with
  | nil =>
    intro _ buf hbuf
    simp [chunkLoop, pyStrip_eq_nil_of_all buf hbuf]
  | cons para ps ih =>
    intro hps buf hbuf
    have hpara := hps para (List.mem_cons_self _ _)
    have hg : wc buf + wc para < maxTokens := by
      rw [wc_eq_zero_of_all buf hbuf, wc_eq_zero_of_all para hpara]
      omega
    simp only [chunkLoop, if_pos hg]
    apply ih (fun p hp => hps p (List.mem_cons_of_mem _ hp))
    intro c hc
    rcases List.mem_append.mp hc with hc | hc
    · rcases List.mem_append.mp hc with hc | hc
      · exact hbuf c hc
      · exact hpara c hc
    · simp at hc
      subst hc; decide

/-! ### Claim C1 -/

/-- C1 counterexample: the claim "every chunk returned by chunk_text is
non-empty, including when the first non-blank paragraph alone has a word
count of at least max_tokens" is false on the code: on the text
`"a b c"` with `max_tokens = 2` the first paragraph alone reaches the
bound, the guard fails on the first iteration while `current_chunk` is
still `""`, and `chunk_text` emits the empty string as its first chunk. -/
theorem chunk_text_emits_empty_chunk_cex :
    chunk_text ("a b c".data) 2 = [[], "a b c".data] ∧
      [] ∈ chunk_text ("a b c".data) 2 := by
  exact ⟨by decide, by decide⟩

/-- C1 (amended): every chunk returned by `chunk_text` is a non-empty
string provided every paragraph of the input has word count strictly
below `max_tokens`; when some paragraph alone reaches `max_tokens` the
output may contain empty chunks. -/
theorem chunk_text_nonempty_of_small_paragraphs (text : Str) (maxTokens : Nat)
    (h : ∀ p ∈ splitNL text, wc p < maxTokens) :
    ∀ c ∈ chunk_text text maxTokens, c ≠ [] :=
  chunkLoop_ne_nil_mem maxTokens (splitNL text) h []

/-- Witness for C1's amended theorem at the text `"hello world\nfoo"`
with `max_tokens = 3`. -/
theorem chunk_text_nonempty_of_small_paragraphs_witness :
    [] ∉ chunk_text ("hello world\nfoo".data) 3 :=
  fun hmem =>
    chunk_text_nonempty_of_small_paragraphs ("hello world\nfoo".data) 3
      (by decide) [] hmem rfl

/-! ### Claim C2 -/

/-- C2: every chunk produced by `chunk_text` has a whitespace-delimited
token count of at most `max_tokens`, or else it is the stripped form of
exactly one input paragraph whose token count alone exceeds `max_tokens`;
in particular every chunk still containing a paragraph boundary (a
newline) has token count strictly below `max_tokens`. -/
theorem chunk_text_token_bound (text : Str) (maxTokens : Nat) :
    ∀ c ∈ chunk_text text maxTokens,
      (wc c ≤ maxTokens ∨ (maxTokens < wc c ∧
         ∃ p ∈ splitNL text, c = pyStrip (p ++ ['\n']) ∧ maxTokens < wc p)) ∧
      (('\n' : Char) ∈ c → wc c < maxTokens) :=
  chunkLoop_bound maxTokens (splitNL text) (splitNL_no_newline text)
    (splitNL text) (fun _ hp => hp) [] (Or.inl rfl)

/-- Witness for C2 at the oversized single-paragraph chunk
`"a b c d e"` with `max_tokens = 2`. -/
theorem chunk_text_token_bound_witness :
    (wc ("a b c d e".data) ≤ 2 ∨ (2 < wc ("a b c d e".data) ∧
       ∃ p ∈ splitNL ("a b c d e".data),
         "a b c d e".data = pyStrip (p ++ ['\n']) ∧ 2 < wc p)) ∧
    (('\n' : Char) ∈ ("a b c d e".data) → wc ("a b c d e".data) < 2) :=
  chunk_text_token_bound ("a b c d e".data) 2 ("a b c d e".data) (by decide)

/-! ### Claim C8 -/

/-- C8: chunking a text all of whose paragraphs are blank (in particular
the empty string) with the configured `CHUNK_SIZE_TOKENS` yields no
chunks; consequently a file whose cleaned text is such a text produces no
embedding calls, no index write and no summary entry, and the ingestion
walk over the remaining files is unchanged. -/
theorem blank_text_chunks_empty_and_skipped (text : String)
    (h : ∀ p ∈ splitNL text.data, pyStrip p = []) :
    chunk_text text.data CHUNK_SIZE_TOKENS = [] ∧
    ∀ (env : IngestEnv) (name path html title : String),
      env.cleanHtml html = .ok (title, text) →
      runFileSteps env name path html = (.ok none, []) ∧
      ∀ (fs : List FileEntry),
        ingestLoop env (⟨name, path, .ok html⟩ :: fs) = ingestLoop env fs := by
  have hchunks : chunk_text text.data CHUNK_SIZE_TOKENS = [] := by
    unfold chunk_text
    apply chunkLoop_all_blank CHUNK_SIZE_TOKENS (by decide)
    · intro p hp
      exact all_space_of_pyStrip_nil p (h p hp)
    · intro c hc
      simp at hc
  refine ⟨hchunks, ?_⟩
  intro env name path html title hclean
  have hrun : runFileSteps env name path html = (.ok none, []) := by
    unfold runFileSteps
    rw [hclean]
    simp [hchunks]
  refine ⟨hrun, ?_⟩
  intro fs
  by_cases helig : isEligible name = true
  · rcases hres : ingestLoop env fs with ⟨rest, restEffs⟩
    simp only [ingestLoop, helig, if_true, hrun, hres]
    cases rest <;> simp [Except.map]
  · simp only [ingestLoop]
    simp [helig]

/-- Witness for C8 at the empty input string. -/
theorem blank_text_chunks_empty_and_skipped_witness :
    chunk_text ("".data) CHUNK_SIZE_TOKENS = [] ∧
    runFileSteps ⟨fun _ => .ok ("T", ""), fun _ => .ok [], fun _ _ _ _ => .ok ()⟩
      "a.html" "/docs/a.html" "<html></html>" = (.ok none, []) :=
  ⟨(blank_text_chunks_empty_and_skipped "" (by decide)).1,
   ((blank_text_chunks_empty_and_skipped "" (by decide)).2
      ⟨fun _ => .ok ("T", ""), fun _ => .ok [], fun _ _ _ _ => .ok ()⟩
      "a.html" "/docs/a.html" "<html></html>" "T" rfl).1⟩

/-! ### Claim C6 -/

theorem validPaths_cons_none (c : RetChunk) (cs : List RetChunk)
    (h : c.metadata.source_path = none) : validPaths (c :: cs) = validPaths cs := by
  unfold validPaths
  rw [List.filterMap_cons, h]

theorem validPaths_cons_some (c : RetChunk) (cs : List RetChunk) (p : String)
    (h : c.metadata.source_path = some p) :
    validPaths (c :: cs) = if p = "" then validPaths cs else p :: validPaths cs := by
  unfold validPaths
  rw [List.filterMap_cons, h]
  by_cases hp : p = "" <;> simp [hp]

theorem dedupLoop_spec :
    ∀ (chunks : List RetChunk) (seen : List String),
      dedupLoop chunks seen = (firstOccAux seen (validPaths chunks)).map basenameS := by
  intro chunks
  induction chunks with
  | nil => intro seen; rfl
  | cons c cs ih =>
    intro seen
    cases hsp : c.metadata.source_path with
    | none =>
      rw [validPaths_cons_none c cs hsp]
      simp only [dedupLoop, hsp]
      exact ih seen
    | some p =>
      rw [validPaths_cons_some c cs p hsp]
      by_cases hp : p = ""
      · subst hp
        rw [if_pos rfl]
        simp only [dedupLoop, hsp]
        rw [if_neg (by simp)]
        exact ih seen
      · rw [if_neg hp]
        by_cases hseen : p ∈ seen
        · simp only [dedupLoop, hsp, firstOccAux]
          rw [if_neg (by simp [hp, hseen]), if_pos hseen]
          exact ih seen
        · simp only [dedupLoop, hsp, firstOccAux]
          rw [if_pos ⟨hp, hseen⟩, if_neg hseen, List.map_cons]
          rw [ih (p :: seen)]

/-- C6: the citation list built by `get_rag_response_stream` keeps the
first occurrence of each distinct truthy `source_path` in rank order and
takes each kept path's basename (the refinement equality against the
spec-side `firstOccurrences`), and the rendered list is those basenames
sorted alphabetically; on the example paths
`["b/doc.html", "a/doc.html", "a/doc.html"]` in rank order the sorted
citation list is the two basenames, one per kept path. -/
theorem citation_dedup_first_occurrence_sorted :
    (∀ (retrieved_chunks : List RetChunk),
       source_documents retrieved_chunks =
         (firstOccurrences (validPaths retrieved_chunks)).map basenameS) ∧
    pySorted (source_documents
        [⟨"d1", ⟨"t", some "b/doc.html"⟩⟩, ⟨"d2", ⟨"t", some "a/doc.html"⟩⟩,
         ⟨"d3", ⟨"t", some "a/doc.html"⟩⟩]) = ["doc.html", "doc.html"] := by
  constructor
  · intro retrieved_chunks
    exact dedupLoop_spec retrieved_chunks []
  · rfl

/-! ### Claim C7 -/

/-- C7: `search_vector_db` returns the empty list — and, being a total
function of the modelled `try` block, never lets an exception escape —
when the collection lookup raises, when the query raises, or when the
query returns zero matches; otherwise it returns the ranked results
normalized to (document, metadata) pairs. -/
theorem search_vector_db_no_raise (db : VectorDb) (emb : List Int) (k : Nat) :
    ((∃ e, db.getCollection = .error e) → search_vector_db db emb k = []) ∧
    (∀ e, db.query emb k = .error e → search_vector_db db emb k = []) ∧
    (∀ res, db.query emb k = .ok res → res.ids.headD [] = [] →
       search_vector_db db emb k = []) ∧
    (∀ res ids0 idsR docs0 docsR metas0 metasR,
       db.getCollection = .ok () →
       db.query emb k = .ok res →
       res.ids = ids0 :: idsR → ids0 ≠ [] →
       res.documents = docs0 :: docsR → res.metadatas = metas0 :: metasR →
       search_vector_db db emb k =
         (docs0.zip metas0).map (fun dm => ⟨dm.1, dm.2⟩)) := by
  refine ⟨?_, ?_, ?_, ?_⟩
  · rintro ⟨e, hg⟩
    simp [search_vector_db, hg]
  · intro e hq
    cases hg : db.getCollection with
    | error e2 => simp [search_vector_db, hg]
    | ok u => simp [search_vector_db, hg, hq]
  · intro res hq hids
    cases hg : db.getCollection with
    | error e2 => simp [search_vector_db, hg]
    | ok u =>
      cases hi : res.ids with
      | nil => simp [search_vector_db, hg, hq, hi]
      | cons ids0 idsR =>
        rw [hi] at hids
        simp at hids
        simp [search_vector_db, hg, hq, hi, hids]
  · intro res ids0 idsR docs0 docsR metas0 metasR hg hq hi hne hd hm
    simp only [search_vector_db, hg, hq, hi, hd, hm]
    rw [if_neg hne]

/-- Witness for C7 at a concrete one-match database. -/
theorem search_vector_db_no_raise_witness :
    search_vector_db
      ⟨.ok (), fun _ _ => .ok ⟨[["i1"]], [["d1"]], [[⟨"T", some "p"⟩]]⟩⟩ [2] 5 =
      [⟨"d1", ⟨"T", some "p"⟩⟩] :=
  (search_vector_db_no_raise
      ⟨.ok (), fun _ _ => .ok ⟨[["i1"]], [["d1"]], [[⟨"T", some "p"⟩]]⟩⟩ [2] 5).2.2.2
    ⟨[["i1"]], [["d1"]], [[⟨"T", some "p"⟩]]⟩ ["i1"] [] ["d1"] [] [⟨"T", some "p"⟩] []
    rfl rfl rfl (by decide) rfl rfl

/-! ### Claim C9 -/

/-- C9: clearing an existing collection leaves an existing empty
collection whose count is 0 and against which a query returns the empty
result without raising; clearing a nonexistent collection is a no-op
returning the informational message. -/
theorem clear_database_collection_resets (s : DbState) :
    (∀ items, s.collection = some items →
       (clear_database_collection s).1.collection = some [] ∧
       (clear_database_collection s).2 = clearSuccessMsg ∧
       countState (clear_database_collection s).1 = .ok 0 ∧
       ∀ rank emb k,
         search_vector_db (dbOfState (clear_database_collection s).1 rank) emb k = []) ∧
    (s.collection = none → clear_database_collection s = (s, clearInfoMsg)) := by
  constructor
  · intro items hcol
    unfold clear_database_collection
    rw [hcol]
    exact ⟨rfl, rfl, rfl, fun rank emb k => rfl⟩
  · intro hcol
    unfold clear_database_collection
    rw [hcol]

/-- Witness for C9 at a one-item collection and at the absent collection. -/
theorem clear_database_collection_resets_witness :
    (clear_database_collection ⟨some [⟨"id1", [1], "doc", ⟨"T", some "p"⟩⟩]⟩).1.collection =
        some [] ∧
    countState (clear_database_collection ⟨some [⟨"id1", [1], "doc", ⟨"T", some "p"⟩⟩]⟩).1 =
        .ok 0 ∧
    search_vector_db
        (dbOfState (clear_database_collection ⟨some [⟨"id1", [1], "doc", ⟨"T", some "p"⟩⟩]⟩).1
          (fun _ _ _ => ⟨[], [], []⟩)) [] 5 = [] ∧
    clear_database_collection ⟨none⟩ = (⟨none⟩, clearInfoMsg) := by
  have h1 :=
    (clear_database_collection_resets ⟨some [⟨"id1", [1], "doc", ⟨"T", some "p"⟩⟩]⟩).1
      [⟨"id1", [1], "doc", ⟨"T", some "p"⟩⟩] rfl
  exact ⟨h1.1, h1.2.2.1, h1.2.2.2 (fun _ _ _ => ⟨[], [], []⟩) [] 5,
    (clear_database_collection_resets ⟨none⟩).2 rfl⟩

/-! ### Claim C10 -/

/-- C10: `clean_html` raises (`AttributeError` from `None.strip()`) when
the document has a `<title>` element whose `.string` is `None`; the
`"Untitled Document"` default is applied only when the title element
itself is absent; and during ingestion such a file becomes a per-file
failure line rather than being indexed. -/
theorem clean_html_none_title_string_raises (soup : Soup) :
    (soup.titleTag = some none → clean_html soup = .error attrErrorMsg) ∧
    (soup.titleTag = none →
       clean_html soup = .ok ("Untitled Document", soup.textContent)) ∧
    (∀ s, soup.titleTag = some (some s) →
       clean_html soup = .ok (pyStripS s, soup.textContent)) ∧
    (∀ (parse : String → Soup) (embed : Str → Except String (List Int))
       (indexAdd : List Str → List (List Int) → String → String → Except String Unit)
       (name path html : String) (fs : List FileEntry),
       (parse html).titleTag = some none →
       isEligible name = true →
       ingestLoop ⟨fun h => clean_html (parse h), embed, indexAdd⟩
           (⟨name, path, .ok html⟩ :: fs) =
         ((ingestLoop ⟨fun h => clean_html (parse h), embed, indexAdd⟩ fs).1.map
            (fun lines => failLine path attrErrorMsg :: lines),
          (ingestLoop ⟨fun h => clean_html (parse h), embed, indexAdd⟩ fs).2)) := by
  refine ⟨?_, ?_, ?_, ?_⟩
  · intro h
    unfold clean_html
    rw [h]
  · intro h
    unfold clean_html
    rw [h]
  · intro s h
    unfold clean_html
    rw [h]
  · intro parse embed indexAdd name path html fs hparse helig
    have hrun : runFileSteps ⟨fun h => clean_html (parse h), embed, indexAdd⟩
        name path html = (.error attrErrorMsg, []) := by
      unfold runFileSteps
      show (match clean_html (parse html) with
        | .error e => (Except.error e, [])
        | .ok (_title, text) => _) = _
      unfold clean_html
      rw [hparse]
    rcases hres : ingestLoop ⟨fun h => clean_html (parse h), embed, indexAdd⟩ fs
      with ⟨rest, restEffs⟩
    simp only [ingestLoop, helig, if_true, hrun, hres]
    simp

/-- Witness for C10 at a `<title>` element with `None` string. -/
theorem clean_html_none_title_string_raises_witness :
    clean_html ⟨some none, "body text"⟩ = .error attrErrorMsg ∧
    ingestLoop ⟨fun h => clean_html ((fun _ => (⟨some none, "body text"⟩ : Soup)) h),
        fun _ => .ok [], fun _ _ _ _ => .ok ()⟩
        [⟨"t.html", "/docs/t.html", .ok "<title></title>"⟩] =
      (.ok [failLine "/docs/t.html" attrErrorMsg], []) := by
  have h := clean_html_none_title_string_raises ⟨some none, "body text"⟩
  refine ⟨h.1 rfl, ?_⟩
  have h2 := h.2.2.2 (fun _ => (⟨some none, "body text"⟩ : Soup))
    (fun _ => .ok []) (fun _ _ _ _ => .ok ()) "t.html" "/docs/t.html"
    "<title></title>" [] rfl rfl
  exact h2

/-! ### Claim C3 -/

/-- C3 counterexample: the claim that "reading/decoding the file" is
caught at file granularity is false on the code: `open(...).read()` sits
OUTSIDE the `try` block of `ingest_directory`, so a read exception (e.g.
a `PermissionError`) propagates, aborts the walk before the second file,
and no failure line is recorded. -/
theorem ingest_read_error_aborts_walk_cex :
    ingestLoop ⟨fun _ => .ok ("t", ""), fun _ => .ok [], fun _ _ _ _ => .ok ()⟩
      [⟨"a.html", "/docs/a.html", .error "PermissionError: [Errno 13] Permission denied"⟩,
       ⟨"b.html", "/docs/b.html", .ok "<p>hello</p>"⟩] =
      (.error "PermissionError: [Errno 13] Permission denied", []) := rfl

/-- C3 (amended): when no file read raises, every exception raised by the
per-file processing steps inside the `try` block (parsing, chunking,
embedding, index write) is caught at file granularity: the walk completes
normally, `ingest_directory` returns the joined summary, and a failure
line naming the file's path and the error appears in the summary for each
eligible file whose processing raised; but a read exception aborts the
walk. -/
theorem ingest_catches_processing_errors (env : IngestEnv) :
    ∀ (files : List FileEntry), (∀ f ∈ files, ∃ h, f.readRes = .ok h) →
      ∃ lines, (ingestLoop env files).1 = .ok lines ∧
        (ingest_directory env files).1 = .ok (String.intercalate "\n" lines) ∧
        ∀ f ∈ files, ∀ html e, f.readRes = .ok html → isEligible f.name = true →
          (runFileSteps env f.name f.path html).1 = .error e →
          failLine f.path e ∈ lines := by
  intro files
  induction files with
  | nil =>
    intro _
    exact ⟨[], rfl, rfl, by intro f hf; simp at hf⟩
  | cons f fs ih =>
    intro hread
    obtain ⟨htmlf, hf⟩ := hread f (List.mem_cons_self _ _)
    obtain ⟨lines, hloop, hdir, hmem⟩ := ih (fun g hg => hread g (List.mem_cons_of_mem _ hg))
    rcases hres : ingestLoop env fs with ⟨rest, restEffs⟩
    rw [hres] at hloop
    simp only at hloop
    subst hloop
    have hdirc : ∀ ls effs2, ingestLoop env (f :: fs) = (.ok ls, effs2) →
        (ingest_directory env (f :: fs)).1 = .ok (String.intercalate "\n" ls) := by
      intro ls effs2 hl
      unfold ingest_directory
      rw [hl]
    by_cases helig : isEligible f.name = true
    · rcases hrun : runFileSteps env f.name f.path htmlf with ⟨r, effs⟩
      cases r with
      | error e0 =>
        have hloopc : ingestLoop env (f :: fs) =
            (.ok (failLine f.path e0 :: lines), effs ++ restEffs) := by
          simp only [ingestLoop, helig, if_true, hf, hrun, hres]
          rfl
        refine ⟨failLine f.path e0 :: lines, by rw [hloopc], hdirc _ _ hloopc, ?_⟩
        intro g hg html e hgread hgelig hgrun
        rcases List.mem_cons.mp hg with hg | hg
        · subst hg
          rw [hf] at hgread
          have hh : html = htmlf := by
            exact (Except.ok.injEq _ _ ▸ hgread).symm
          subst hh
          rw [hrun] at hgrun
          simp only [Except.error.injEq] at hgrun
          rw [← hgrun]
          exact List.mem_cons_self _ _
        · exact List.mem_cons_of_mem _ (hmem g hg html e hgread hgelig hgrun)
      | ok o =>
        cases o with
        | none =>
          have hloopc : ingestLoop env (f :: fs) = (.ok lines, effs ++ restEffs) := by
            simp only [ingestLoop, helig, if_true, hf, hrun, hres]
            rfl
          refine ⟨lines, by rw [hloopc], hdirc _ _ hloopc, ?_⟩
          intro g hg html e hgread hgelig hgrun
          rcases List.mem_cons.mp hg with hg | hg
          · subst hg
            rw [hf] at hgread
            have hh : html = htmlf := by
              exact (Except.ok.injEq _ _ ▸ hgread).symm
            subst hh
            rw [hrun] at hgrun
            simp at hgrun
          · exact hmem g hg html e hgread hgelig hgrun
        | some line =>
          have hloopc : ingestLoop env (f :: fs) =
              (.ok (line :: lines), effs ++ restEffs) := by
            simp only [ingestLoop, helig, if_true, hf, hrun, hres]
            rfl
          refine ⟨line :: lines, by rw [hloopc], hdirc _ _ hloopc, ?_⟩
          intro g hg html e hgread hgelig hgrun
          rcases List.mem_cons.mp hg with hg | hg
          · subst hg
            rw [hf] at hgread
            have hh : html = htmlf := by
              exact (Except.ok.injEq _ _ ▸ hgread).symm
            subst hh
            rw [hrun] at hgrun
            simp at hgrun
          · exact List.mem_cons_of_mem _ (hmem g hg html e hgread hgelig hgrun)
    · have hloopc : ingestLoop env (f :: fs) = ingestLoop env fs := by
        simp only [ingestLoop]
        simp [helig]
      refine ⟨lines, ?_, ?_, ?_⟩
      · rw [hloopc, hres]
      · unfold ingest_directory
        rw [hloopc, hres]
      · intro g hg html e hgread hgelig hgrun
        rcases List.mem_cons.mp hg with hg | hg
        · subst hg
          exact absurd hgelig helig
        · exact hmem g hg html e hgread hgelig hgrun

/-- Witness for C3's amended theorem: one eligible file whose parse step
raises; the walk returns normally and records the failure line. -/
theorem ingest_catches_processing_errors_witness :
    ∃ lines,
      (ingestLoop ⟨fun _ => .error "HTMLParseError: boom", fun _ => .ok [],
          fun _ _ _ _ => .ok ()⟩
        [⟨"a.html", "/docs/a.html", .ok "<p>"⟩]).1 = .ok lines ∧
      (ingest_directory ⟨fun _ => .error "HTMLParseError: boom", fun _ => .ok [],
          fun _ _ _ _ => .ok ()⟩
        [⟨"a.html", "/docs/a.html", .ok "<p>"⟩]).1 =
          .ok (String.intercalate "\n" lines) ∧
      ∀ f ∈ [(⟨"a.html", "/docs/a.html", .ok "<p>"⟩ : FileEntry)], ∀ html e,
        f.readRes = .ok html → isEligible f.name = true →
        (runFileSteps ⟨fun _ => .error "HTMLParseError: boom", fun _ => .ok [],
            fun _ _ _ _ => .ok ()⟩ f.name f.path html).1 = .error e →
        failLine f.path e ∈ lines :=
  ingest_catches_processing_errors
    ⟨fun _ => .error "HTMLParseError: boom", fun _ => .ok [], fun _ _ _ _ => .ok ()⟩
    [⟨"a.html", "/docs/a.html", .ok "<p>"⟩]
    (by
      intro f hf
      simp only [List.mem_singleton] at hf
      subst hf
      exact ⟨"<p>", rfl⟩)

/-! ### Claim C4 -/

/-- C4 counterexample: the claim that `get_rag_response_stream` never
lets an exception escape, "including when the embedding service call
fails", is false on the code: the `ollama.embeddings` call is outside any
`try`, so its exception propagates to the caller instead of being
converted to `(None, message)`. -/
theorem rag_embed_error_escapes_cex :
    get_rag_response_stream
      ⟨fun _ => .error "ConnectionError: embedding backend down", fun _ => .ok []⟩
      ⟨.ok (), fun _ _ => .ok ⟨[], [], []⟩⟩ "what is the price?" =
      (.error "ConnectionError: embedding backend down",
       [.embedCall "what is the price?"]) := rfl

/-- C4 (amended): failures of the similarity search (collection lookup or
query raising) are absorbed inside `search_vector_db`, which returns
empty, so the query path returns the `(None, message)` sentinel without
raising; but an exception raised by the embedding call escapes
`get_rag_response_stream` to the caller. -/
theorem rag_search_failure_absorbed_embed_failure_escapes :
    (∀ (env : RagEnv) (db : VectorDb) (query : String) (emb : List Int),
       env.embed query = .ok emb →
       ((∃ e, db.getCollection = .error e) ∨ (∃ e, db.query emb 5 = .error e)) →
       get_rag_response_stream env db query =
         (.ok (none, ragErrorMessage), [.embedCall query])) ∧
    (∀ (env : RagEnv) (db : VectorDb) (query : String) (e : String),
       env.embed query = .error e →
       get_rag_response_stream env db query = (.error e, [.embedCall query])) := by
  constructor
  · intro env db query emb hemb hfail
    have hsearch : search_vector_db db emb 5 = [] := by
      rcases hfail with ⟨e, hg⟩ | ⟨e, hq⟩
      · simp [search_vector_db, hg]
      · cases hg : db.getCollection with
        | error e2 => simp [search_vector_db, hg]
        | ok u => simp [search_vector_db, hg, hq]
    simp [get_rag_response_stream, hemb, hsearch]
  · intro env db query e hemb
    simp [get_rag_response_stream, hemb]

/-- Witness for C4's amended theorem at a database whose collection
lookup raises. -/
theorem rag_search_failure_absorbed_witness :
    get_rag_response_stream ⟨fun _ => .ok [1], fun _ => .ok []⟩
      ⟨.error .valueError, fun _ _ => .error .valueError⟩ "q" =
      (.ok (none, ragErrorMessage), [.embedCall "q"]) :=
  rag_search_failure_absorbed_embed_failure_escapes.1
    ⟨fun _ => .ok [1], fun _ => .ok []⟩
    ⟨.error .valueError, fun _ _ => .error .valueError⟩ "q" [1] rfl
    (.inl ⟨.valueError, rfl⟩)

/-! ### Claim C5 -/

/-- C5: when retrieval returns the empty sequence, the query path returns
the `None` stream with the fixed explanatory error message and does not
invoke the generation service (no `chatCall` effect is recorded). -/
theorem rag_empty_retrieval_short_circuit (env : RagEnv) (db : VectorDb)
    (query : String) (emb : List Int)
    (hemb : env.embed query = .ok emb)
    (hsearch : search_vector_db db emb 5 = []) :
    get_rag_response_stream env db query =
      (.ok (none, ragErrorMessage), [.embedCall query]) := by
  simp [get_rag_response_stream, hemb, hsearch]

/-- Witness for C5 at a database whose query returns zero matches. -/
theorem rag_empty_retrieval_short_circuit_witness :
    get_rag_response_stream ⟨fun _ => .ok [7], fun _ => .ok []⟩
      ⟨.ok (), fun _ _ => .ok ⟨[[]], [[]], [[]]⟩⟩ "q2" =
      (.ok (none, ragErrorMessage), [.embedCall "q2"]) :=
  rag_empty_retrieval_short_circuit ⟨fun _ => .ok [7], fun _ => .ok []⟩
    ⟨.ok (), fun _ _ => .ok ⟨[[]], [[]], [[]]⟩⟩ "q2" [7] rfl rfl
